import Mathlib

/-!
# PIConGPU: Yee-cell field positions and the alias pair builder

A shallow embedding of

* `src/picongpu/include/fields/numericalCellTypes/YeeCell.hpp`
  (`picongpu::yeeCell::traits::FieldPosition`), and
* `src/libPMacc/include/compileTime/conversion/TypeToAliasPair.hpp`
  (`PMacc::TypeToAliasPair`).

Both are compile-time constructs.  Template resolution is embedded as a
function on the template arguments; a combination for which only the
declared-but-undefined primary template is available is `none`.

Every floating-point literal of the source is `0.0` or `0.5`.  Both are
dyadic and exactly representable in single and in double precision, so the
offsets are embedded as rational numbers without rounding.
-/

namespace PMacc

/-- Types of C++ as far as the partial specialisation of `TypeToAliasPair` can
tell them apart: the two marker types of `pmacc_types.hpp`, any other
non-template type (by name), and an instantiation `tmpl<args...>` of a class
template whose parameters are exactly the listed type parameters. -/
inductive CppType where
  | pmacc_void : CppType
  | pmacc_isAlias : CppType
  | named (name : String) : CppType
  | inst (tmpl : String) (args : List CppType) : CppType

/-- The `boost::mpl::pair<First, Second>` built by the conversions. -/
abbrev bmplPair := CppType × CppType

/-- Modelled from the spec: `TypeToPair` of
`compileTime/conversion/TypeToPair.hpp`, which is included by
`TypeToAliasPair.hpp` but is not part of the sources at hand.  Section 4.1:
"Otherwise, `K = V = T` (identity pair)". -/
def TypeToPair (T_Type : CppType) : bmplPair :=
  (T_Type, T_Type)

/-- Resolution of `TypeToAliasPair<T>::type`.  The partial specialisation
`TypeToAliasPair< T_Alias<T_Type, pmacc_isAlias> >` is selected exactly for an
instantiation of a two-parameter template whose second argument is
`pmacc_isAlias`; every other type uses the primary template. -/
def TypeToAliasPair : CppType → bmplPair
  | .inst T_Alias [T_Type, .pmacc_isAlias] =>
      (.inst T_Alias [.pmacc_void, .pmacc_isAlias],
       .inst T_Alias [T_Type, .pmacc_isAlias])
  | T_Type => TypeToPair T_Type

/-- Modelled from the spec: the override-table builder that consumes the pair
builder, which is not part of the sources at hand.  Section 8: "constructing
the override table from a list of types ... must yield exactly 2 distinct pair
entries ..., insertion order preserved": the table holds the pair of each type
of the list, in the order of the list. -/
def overrideTable (types : List CppType) : List bmplPair :=
  types.map TypeToAliasPair

end PMacc

namespace picongpu

/-- Precision type of the simulation. -/
abbrev float_X := ℚ

/-- Dimension constants of libPMacc. -/
def DIM1 : Nat := 1

/-- Dimension constants of libPMacc. -/
def DIM2 : Nat := 2

/-- Dimension constants of libPMacc. -/
def DIM3 : Nat := 3

/-- A `PMacc::math::Vector<T, N>` is embedded as the list of its components. -/
abbrev Vector (T : Type) := List T

/-- Constructor `float2_X(x, y)`. -/
def float2_X (x y : float_X) : Vector float_X := [x, y]

/-- Constructor `float3_X(x, y, z)`. -/
def float3_X (x y z : float_X) : Vector float_X := [x, y, z]

/-- Modelled from the spec: `PMacc::math::Vector<T, N>::create(value)` of
`math/Vector.hpp`, which is not part of the sources at hand.  Section 4.2:
"single offset, all components 0.0, length = Dim": a vector of `N` components
that all hold `value`. -/
def Vector.create (N : Nat) (value : float_X) : Vector float_X :=
  List.replicate N value

namespace yeeCell
namespace traits

/-- The field tags for which `FieldPosition` has specialisations. -/
inductive Field where
  | FieldE
  | FieldB
  | FieldJ
  | FieldTmp
  deriving DecidableEq, Repr

/-- Constructor of `VectorVector2D3V = Vector<float2_X, DIM3>`. -/
def VectorVector2D3V (x y z : Vector float_X) : Vector (Vector float_X) := [x, y, z]

/-- Constructor of `VectorVector3D3V = Vector<float3_X, DIM3>`. -/
def VectorVector3D3V (x y z : Vector float_X) : Vector (Vector float_X) := [x, y, z]

/-- Constructor of `ReturnType = Vector<FieldPos, DIM1>` of the `FieldTmp`
specialisation. -/
def ReturnType (x : Vector float_X) : Vector (Vector float_X) := [x]

/-- Specialisations `FieldPosition<FieldE, DIM2>` and
`FieldPosition<FieldE, DIM3>`, invoked. -/
def FieldPositionE (T_simDim : Nat) : Option (Vector (Vector float_X)) :=
  if T_simDim = DIM2 then
    let posE_x := float2_X 0.5 0.0
    let posE_y := float2_X 0.0 0.5
    let posE_z := float2_X 0.0 0.0
    some (VectorVector2D3V posE_x posE_y posE_z)
  else if T_simDim = DIM3 then
    let posE_x := float3_X 0.5 0.0 0.0
    let posE_y := float3_X 0.0 0.5 0.0
    let posE_z := float3_X 0.0 0.0 0.5
    some (VectorVector3D3V posE_x posE_y posE_z)
  else none

/-- Specialisations `FieldPosition<FieldB, DIM2>` and
`FieldPosition<FieldB, DIM3>`, invoked. -/
def FieldPositionB (T_simDim : Nat) : Option (Vector (Vector float_X)) :=
  if T_simDim = DIM2 then
    let posB_x := float2_X 0.0 0.5
    let posB_y := float2_X 0.5 0.0
    let posB_z := float2_X 0.5 0.5
    some (VectorVector2D3V posB_x posB_y posB_z)
  else if T_simDim = DIM3 then
    let posB_x := float3_X 0.0 0.5 0.5
    let posB_y := float3_X 0.5 0.0 0.5
    let posB_z := float3_X 0.5 0.5 0.0
    some (VectorVector3D3V posB_x posB_y posB_z)
  else none

/-- The value of `FieldPosition<T_Field, T_simDim>()()`, or `none` when only
the undefined primary template is left.  `FieldJ` derives from the `FieldE`
specialisation of the same dimension and inherits its call operator;
`FieldTmp` is specialised for every dimension. -/
def FieldPosition (T_Field : Field) (T_simDim : Nat) : Option (Vector (Vector float_X)) :=
  match T_Field with
  | .FieldE => FieldPositionE T_simDim
  | .FieldB => FieldPositionB T_simDim
  | .FieldJ => FieldPositionE T_simDim
  | .FieldTmp => some (ReturnType (Vector.create T_simDim 0.0))

/-- Offset of field component `c` on axis `a`: `FieldPosition<...>()()[c][a]`. -/
def offset (T_Field : Field) (T_simDim c a : Nat) : Option float_X :=
  match FieldPosition T_Field T_simDim with
  | some r => (r.get? c).bind (fun v => v.get? a)
  | none => none

/-- Closed-form rule for the E offsets, as the specification words it: 0.5 on
the axis of the component, 0.0 on every other axis. -/
def closedFormE (c a : Nat) : float_X :=
  if a = c then 1/2 else 0

/-- Closed-form rule for the B offsets, as the specification words it: 0.0 on
the axis of the component, 0.5 on every other axis. -/
def closedFormB (c a : Nat) : float_X :=
  if a = c then 0 else 1/2

end traits
end yeeCell
end picongpu

open PMacc picongpu picongpu.yeeCell.traits

/-! ## Evaluation lemmas for the specialisation table -/

theorem FieldPositionE_DIM2 :
    FieldPositionE 2 = some [[1/2, 0], [0, 1/2], [0, 0]] := by
  norm_num [FieldPositionE, DIM2, float2_X, VectorVector2D3V]

theorem FieldPositionE_DIM3 :
    FieldPositionE 3 = some [[1/2, 0, 0], [0, 1/2, 0], [0, 0, 1/2]] := by
  norm_num [FieldPositionE, DIM2, DIM3, float3_X, VectorVector3D3V]

theorem FieldPositionB_DIM2 :
    FieldPositionB 2 = some [[0, 1/2], [1/2, 0], [1/2, 1/2]] := by
  norm_num [FieldPositionB, DIM2, float2_X, VectorVector2D3V]

theorem FieldPositionB_DIM3 :
    FieldPositionB 3 = some [[0, 1/2, 1/2], [1/2, 0, 1/2], [1/2, 1/2, 0]] := by
  norm_num [FieldPositionB, DIM2, DIM3, float3_X, VectorVector3D3V]

theorem FieldPositionTmp_eq (T_simDim : Nat) :
    FieldPosition .FieldTmp T_simDim = some [List.replicate T_simDim 0] := by
  norm_num [FieldPosition, ReturnType, Vector.create]

theorem FieldPositionE_none (T_simDim : Nat) (h2 : T_simDim ≠ 2) (h3 : T_simDim ≠ 3) :
    FieldPositionE T_simDim = none := by
  simp [FieldPositionE, DIM2, DIM3, h2, h3]

theorem FieldPositionB_none (T_simDim : Nat) (h2 : T_simDim ≠ 2) (h3 : T_simDim ≠ 3) :
    FieldPositionB T_simDim = none := by
  simp [FieldPositionB, DIM2, DIM3, h2, h3]

/-! ## Field positions: the literal tables -/

/-- C1: `FieldPosition` for the electric field E returns the literal offsets
of the table, in the order x, y, z: at dimension 2 they are (0.5, 0.0),
(0.0, 0.5), (0.0, 0.0), at dimension 3 they are (0.5, 0.0, 0.0),
(0.0, 0.5, 0.0), (0.0, 0.0, 0.5). -/
theorem FieldPosition_FieldE_table :
    FieldPosition .FieldE 2 = some [[1/2, 0], [0, 1/2], [0, 0]] ∧
    FieldPosition .FieldE 3 = some [[1/2, 0, 0], [0, 1/2, 0], [0, 0, 1/2]] :=
  ⟨FieldPositionE_DIM2, FieldPositionE_DIM3⟩

/-- C2: `FieldPosition` for the magnetic field B returns the literal offsets
of the table, in the order x, y, z: at dimension 2 they are (0.0, 0.5),
(0.5, 0.0), (0.5, 0.5), at dimension 3 they are (0.0, 0.5, 0.5),
(0.5, 0.0, 0.5), (0.5, 0.5, 0.0). -/
theorem FieldPosition_FieldB_table :
    FieldPosition .FieldB 2 = some [[0, 1/2], [1/2, 0], [1/2, 1/2]] ∧
    FieldPosition .FieldB 3 = some [[0, 1/2, 1/2], [1/2, 0, 1/2], [1/2, 1/2, 0]] :=
  ⟨FieldPositionB_DIM2, FieldPositionB_DIM3⟩

/-- C3: for every supported dimension (2 or 3) the current density J and the
electric field E resolve to the same value: both calls return, the results are
the same collection of three offset vectors, and so every offset of every
component agrees on every axis. -/
theorem FieldPosition_FieldJ_eq_FieldE (Dim : Nat) (h : Dim = 2 ∨ Dim = 3) :
    ∃ r, FieldPosition .FieldE Dim = some r ∧ FieldPosition .FieldJ Dim = some r ∧
      r.length = 3 ∧ ∀ c a, offset .FieldJ Dim c a = offset .FieldE Dim c a := by
  rcases h with rfl | rfl
  · exact ⟨_, FieldPositionE_DIM2, FieldPositionE_DIM2, rfl, fun _ _ => rfl⟩
  · exact ⟨_, FieldPositionE_DIM3, FieldPositionE_DIM3, rfl, fun _ _ => rfl⟩

/-- Witness of C3 at dimension 3. -/
theorem FieldPosition_FieldJ_eq_FieldE_witness :
    (3 = 2 ∨ 3 = 3) ∧
    ∃ r, FieldPosition .FieldE 3 = some r ∧ FieldPosition .FieldJ 3 = some r ∧
      r.length = 3 ∧ ∀ c a, offset .FieldJ 3 c a = offset .FieldE 3 c a :=
  ⟨Or.inr rfl, FieldPosition_FieldJ_eq_FieldE 3 (Or.inr rfl)⟩

/-- C4: for every supported dimension (2 or 3) `FieldPosition` for the scalar
field Tmp returns a collection of exactly one offset vector; that vector has
exactly `Dim` components and each of them is 0.0. -/
theorem FieldPosition_FieldTmp_zero (Dim : Nat) (_h : Dim = 2 ∨ Dim = 3) :
    ∃ v, FieldPosition .FieldTmp Dim = some [v] ∧ v.length = Dim ∧ ∀ x ∈ v, x = 0 := by
  refine ⟨List.replicate Dim 0, FieldPositionTmp_eq Dim, List.length_replicate _ _, ?_⟩
  intro x hx
  exact List.eq_of_mem_replicate hx

/-- Witness of C4 at dimension 2. -/
theorem FieldPosition_FieldTmp_zero_witness :
    (2 = 2 ∨ 2 = 3) ∧
    ∃ v, FieldPosition .FieldTmp 2 = some [v] ∧ v.length = 2 ∧ ∀ x ∈ v, x = 0 :=
  ⟨Or.inl rfl, FieldPosition_FieldTmp_zero 2 (Or.inl rfl)⟩

/-! ## Field positions: staggering of E against B -/

theorem offset_FieldE_DIM2 (c a : Nat) :
    offset .FieldE 2 c a = ([[1/2, 0], [0, 1/2], [0, 0]] : List (List ℚ))[c]?.bind (·[a]?) := by
  simp [offset, FieldPosition, FieldPositionE_DIM2]

theorem offset_FieldE_DIM3 (c a : Nat) :
    offset .FieldE 3 c a =
      ([[1/2, 0, 0], [0, 1/2, 0], [0, 0, 1/2]] : List (List ℚ))[c]?.bind (·[a]?) := by
  simp [offset, FieldPosition, FieldPositionE_DIM3]

theorem offset_FieldB_DIM2 (c a : Nat) :
    offset .FieldB 2 c a = ([[0, 1/2], [1/2, 0], [1/2, 1/2]] : List (List ℚ))[c]?.bind (·[a]?) := by
  simp [offset, FieldPosition, FieldPositionB_DIM2]

theorem offset_FieldB_DIM3 (c a : Nat) :
    offset .FieldB 3 c a =
      ([[0, 1/2, 1/2], [1/2, 0, 1/2], [1/2, 1/2, 0]] : List (List ℚ))[c]?.bind (·[a]?) := by
  simp [offset, FieldPosition, FieldPositionB_DIM3]

/-- C5, as stated, fails on the x axis: the claim asks the E component along x
to sit at 0.0 on the x axis and at 0.5 on y and z, and the B component along x
to sit at 0.5 on x and at 0.0 on y and z.  The 3D table has E_x at
(0.5, 0.0, 0.0) and B_x at (0.0, 0.5, 0.5). -/
theorem yee_duality_as_stated_fails_on_x :
    offset .FieldE 3 0 0 = some (1/2) ∧ offset .FieldE 3 0 1 = some 0 ∧
    offset .FieldE 3 0 2 = some 0 ∧
    offset .FieldB 3 0 0 = some 0 ∧ offset .FieldB 3 0 1 = some (1/2) ∧
    offset .FieldB 3 0 2 = some (1/2) ∧
    ¬ (offset .FieldE 3 0 0 = some 0 ∧ offset .FieldE 3 0 1 = some (1/2) ∧
       offset .FieldE 3 0 2 = some (1/2) ∧
       offset .FieldB 3 0 0 = some (1/2) ∧ offset .FieldB 3 0 1 = some 0 ∧
       offset .FieldB 3 0 2 = some 0) := by
  refine ⟨?_, ?_, ?_, ?_, ?_, ?_, ?_⟩ <;>
    norm_num [offset_FieldE_DIM3, offset_FieldB_DIM3]

/-- C5, amended: in the 3D offsets, for every axis `a` of x, y, z, the E
component along `a` has offset 0.5 on axis `a` and offset 0.0 on each of the
two transverse axes (edge-centred), and the B component along `a` is the dual,
with offset 0.0 on axis `a` and offset 0.5 on each of the two transverse axes
(face-centred). -/
theorem yee_duality_DIM3 (a t : Nat) (ha : a < 3) (ht : t < 3) :
    offset .FieldE 3 a t = some (if t = a then 1/2 else 0) ∧
    offset .FieldB 3 a t = some (if t = a then 0 else 1/2) := by
  interval_cases a <;> interval_cases t <;>
    norm_num [offset_FieldE_DIM3, offset_FieldB_DIM3]

/-- Witness of the amended C5: the y component on the transverse axis z. -/
theorem yee_duality_DIM3_witness :
    (1 < 3 ∧ 2 < 3) ∧
    offset .FieldE 3 1 2 = some (if 2 = 1 then 1/2 else 0) ∧
    offset .FieldB 3 1 2 = some (if 2 = 1 then 0 else 1/2) :=
  ⟨⟨by decide, by decide⟩, yee_duality_DIM3 1 2 (by decide) (by decide)⟩

/-- C6: B is the complement of E within the cell.  For every supported
dimension (2 or 3), every field component `c` of x, y, z and every axis
`a < Dim`, both offsets exist, they sum to exactly 0.5, and exactly one of
them is 0.5 while the other is 0.0. -/
theorem FieldB_complements_FieldE (Dim c a : Nat) (hDim : Dim = 2 ∨ Dim = 3)
    (hc : c < 3) (ha : a < Dim) :
    ∃ e b, offset .FieldE Dim c a = some e ∧ offset .FieldB Dim c a = some b ∧
      e + b = 1/2 ∧ ((e = 1/2 ∧ b = 0) ∨ (e = 0 ∧ b = 1/2)) := by
  rcases hDim with rfl | rfl
  · interval_cases c <;> interval_cases a <;>
      norm_num [offset_FieldE_DIM2, offset_FieldB_DIM2]
  · interval_cases c <;> interval_cases a <;>
      norm_num [offset_FieldE_DIM3, offset_FieldB_DIM3]

/-- Witness of C6: the z component on the y axis of the 2D cell, where E is at
0.0 and B at 0.5. -/
theorem FieldB_complements_FieldE_witness :
    ((2 = 2 ∨ 2 = 3) ∧ 2 < 3 ∧ 1 < 2) ∧
    ∃ e b, offset .FieldE 2 2 1 = some e ∧ offset .FieldB 2 2 1 = some b ∧
      e + b = 1/2 ∧ ((e = 1/2 ∧ b = 0) ∨ (e = 0 ∧ b = 1/2)) :=
  ⟨⟨Or.inl rfl, by decide, by decide⟩,
    FieldB_complements_FieldE 2 2 1 (Or.inl rfl) (by decide) (by decide)⟩

/-! ## Field positions: range and shape of the results -/

/-- C7: for every field kind of E, B, J, Tmp and every supported dimension
(2 or 3) the call returns, and every component `v` of every offset vector of
the result satisfies `0.0 ≤ v < 1.0`. -/
theorem FieldPosition_in_unit_cell (T_Field : Field) (Dim : Nat) (hDim : Dim = 2 ∨ Dim = 3) :
    ∃ r, FieldPosition T_Field Dim = some r ∧ ∀ v ∈ r, ∀ x ∈ v, 0 ≤ x ∧ x < 1 := by
  have key : ∀ r : List (List ℚ), (∀ v ∈ r, ∀ x ∈ v, x = 0 ∨ x = 1/2) →
      ∀ v ∈ r, ∀ x ∈ v, 0 ≤ x ∧ x < 1 := by
    intro r hr v hv x hx
    rcases hr v hv x hx with rfl | rfl <;> norm_num
  cases T_Field
  · rcases hDim with rfl | rfl
    · exact ⟨_, FieldPositionE_DIM2, key _ (by simp)⟩
    · exact ⟨_, FieldPositionE_DIM3, key _ (by simp)⟩
  · rcases hDim with rfl | rfl
    · exact ⟨_, FieldPositionB_DIM2, key _ (by simp)⟩
    · exact ⟨_, FieldPositionB_DIM3, key _ (by simp)⟩
  · rcases hDim with rfl | rfl
    · exact ⟨_, FieldPositionE_DIM2, key _ (by simp)⟩
    · exact ⟨_, FieldPositionE_DIM3, key _ (by simp)⟩
  · refine ⟨_, FieldPositionTmp_eq Dim, key _ ?_⟩
    intro v hv x hx
    rw [List.mem_singleton] at hv
    subst hv
    exact Or.inl (List.eq_of_mem_replicate hx)

/-- Witness of C7: the magnetic field in three dimensions. -/
theorem FieldPosition_in_unit_cell_witness :
    (3 = 2 ∨ 3 = 3) ∧
    ∃ r, FieldPosition .FieldB 3 = some r ∧ ∀ v ∈ r, ∀ x ∈ v, 0 ≤ x ∧ x < 1 :=
  ⟨Or.inr rfl, FieldPosition_in_unit_cell .FieldB 3 (Or.inr rfl)⟩

/-- C8: the shape of the result depends on the field kind only through
vector against scalar.  For every supported dimension (2 or 3): for E, B and J
the result holds exactly 3 offset vectors, each with exactly `Dim` components;
for Tmp the result holds exactly 1 offset vector, with `Dim` components. -/
theorem FieldPosition_shape (T_Field : Field) (Dim : Nat) (hDim : Dim = 2 ∨ Dim = 3) :
    ∃ r, FieldPosition T_Field Dim = some r ∧
      r.length = (if T_Field = .FieldTmp then 1 else 3) ∧ ∀ v ∈ r, v.length = Dim := by
  cases T_Field
  · rcases hDim with rfl | rfl
    · exact ⟨_, FieldPositionE_DIM2, by simp, by simp⟩
    · exact ⟨_, FieldPositionE_DIM3, by simp, by simp⟩
  · rcases hDim with rfl | rfl
    · exact ⟨_, FieldPositionB_DIM2, by simp, by simp⟩
    · exact ⟨_, FieldPositionB_DIM3, by simp, by simp⟩
  · rcases hDim with rfl | rfl
    · exact ⟨_, FieldPositionE_DIM2, by simp, by simp⟩
    · exact ⟨_, FieldPositionE_DIM3, by simp, by simp⟩
  · exact ⟨_, FieldPositionTmp_eq Dim, by simp, by simp⟩

/-- Witness of C8: the current density in two dimensions still has three
offset vectors, each of two components. -/
theorem FieldPosition_shape_witness :
    (2 = 2 ∨ 2 = 3) ∧
    ∃ r, FieldPosition .FieldJ 2 = some r ∧
      r.length = (if Field.FieldJ = .FieldTmp then 1 else 3) ∧ ∀ v ∈ r, v.length = 2 :=
  ⟨Or.inl rfl, FieldPosition_shape .FieldJ 2 (Or.inl rfl)⟩

/-! ## The pair builder -/

/-- C9: for every two-parameter wrapper `Alias` and every inner type `T`, the
pair built for `Alias<T, pmacc_isAlias>` has as key the same wrapper around the
unbound placeholder `pmacc_void`, and as value the input type unchanged. -/
theorem TypeToAliasPair_alias (Alias : String) (T : CppType) :
    TypeToAliasPair (.inst Alias [T, .pmacc_isAlias]) =
      (.inst Alias [.pmacc_void, .pmacc_isAlias], .inst Alias [T, .pmacc_isAlias]) ∧
    (TypeToAliasPair (.inst Alias [T, .pmacc_isAlias])).2 = .inst Alias [T, .pmacc_isAlias] :=
  ⟨rfl, rfl⟩

/-- C10: for every type `T` that is not an instantiation of a two-parameter
wrapper with the alias marker `pmacc_isAlias` as second argument, the pair
builder returns the identity pair `(T, T)`. -/
theorem TypeToAliasPair_plain (T : CppType)
    (hT : ∀ Alias Inner, T ≠ .inst Alias [Inner, .pmacc_isAlias]) :
    TypeToAliasPair T = (T, T) := by
  unfold TypeToAliasPair
  split
  · exact absurd rfl (hT _ _)
  · rfl

/-- Witness of C10: a two-parameter wrapper whose second argument is a type
other than the alias marker. -/
theorem TypeToAliasPair_plain_witness :
    (∀ Alias Inner, CppType.inst "Wrapper" [.named "T", .named "U"] ≠
        .inst Alias [Inner, .pmacc_isAlias]) ∧
    TypeToAliasPair (.inst "Wrapper" [.named "T", .named "U"]) =
      (.inst "Wrapper" [.named "T", .named "U"], .inst "Wrapper" [.named "T", .named "U"]) :=
  ⟨by intro Alias Inner h; simp at h,
    TypeToAliasPair_plain _ (by intro Alias Inner h; simp at h)⟩

theorem TypeToAliasPair_fallback (T : CppType)
    (hT : ∀ Alias Inner, T ≠ .inst Alias [Inner, .pmacc_isAlias]) :
    TypeToAliasPair T = (T, T) := by
  unfold TypeToAliasPair
  split
  · exact absurd rfl (hT _ _)
  · rfl

/-- C11: the key built for an alias does not depend on the type the alias is
bound to.  For every wrapper `Alias` and inner types `T1`, `T2`, the keys of
the pairs of `Alias<T1, pmacc_isAlias>` and `Alias<T2, pmacc_isAlias>` are
equal, while the two values differ whenever `T1` differs from `T2`. -/
theorem TypeToAliasPair_key_independent (Alias : String) (T1 T2 : CppType) :
    (TypeToAliasPair (.inst Alias [T1, .pmacc_isAlias])).1 =
      (TypeToAliasPair (.inst Alias [T2, .pmacc_isAlias])).1 ∧
    (T1 ≠ T2 →
      (TypeToAliasPair (.inst Alias [T1, .pmacc_isAlias])).2 ≠
        (TypeToAliasPair (.inst Alias [T2, .pmacc_isAlias])).2) := by
  refine ⟨rfl, ?_⟩
  intro hne heq
  apply hne
  simp only [TypeToAliasPair] at heq
  injection heq with _ hargs
  injection hargs

/-- Witness of C11: one alias bound to two different named types. -/
theorem TypeToAliasPair_key_independent_witness :
    CppType.named "T1" ≠ CppType.named "T2" ∧
    (TypeToAliasPair (.inst "Alias" [.named "T1", .pmacc_isAlias])).1 =
      (TypeToAliasPair (.inst "Alias" [.named "T2", .pmacc_isAlias])).1 ∧
    (TypeToAliasPair (.inst "Alias" [.named "T1", .pmacc_isAlias])).2 ≠
      (TypeToAliasPair (.inst "Alias" [.named "T2", .pmacc_isAlias])).2 :=
  ⟨by intro h; simp at h,
    (TypeToAliasPair_key_independent "Alias" (.named "T1") (.named "T2")).1,
    (TypeToAliasPair_key_independent "Alias" (.named "T1") (.named "T2")).2
      (by intro h; simp at h)⟩

/-- C12: the override table of a list of one alias `Alias<T, pmacc_isAlias>`
and one plain type `P`, in either order, has exactly 2 entries in the order of
the list: the entry of the alias is
`(Alias<pmacc_void, pmacc_isAlias>, Alias<T, pmacc_isAlias>)`, the entry of
the plain type is `(P, P)`, and the two keys are distinct. -/
theorem overrideTable_alias_and_plain (Alias : String) (T P : CppType)
    (hP : ∀ A Inner, P ≠ .inst A [Inner, .pmacc_isAlias]) :
    overrideTable [.inst Alias [T, .pmacc_isAlias], P] =
      [(.inst Alias [.pmacc_void, .pmacc_isAlias], .inst Alias [T, .pmacc_isAlias]), (P, P)] ∧
    overrideTable [P, .inst Alias [T, .pmacc_isAlias]] =
      [(P, P), (.inst Alias [.pmacc_void, .pmacc_isAlias], .inst Alias [T, .pmacc_isAlias])] ∧
    (overrideTable [.inst Alias [T, .pmacc_isAlias], P]).length = 2 ∧
    (overrideTable [P, .inst Alias [T, .pmacc_isAlias]]).length = 2 ∧
    CppType.inst Alias [.pmacc_void, .pmacc_isAlias] ≠ P := by
  have hPP : TypeToAliasPair P = (P, P) := TypeToAliasPair_fallback P hP
  refine ⟨?_, ?_, rfl, rfl, fun h => hP _ _ h.symm⟩
  · simp only [overrideTable, List.map, hPP]
    rfl
  · simp only [overrideTable, List.map, hPP]
    rfl

/-- Witness of C12: the alias `Alias<T, pmacc_isAlias>` next to the plain
type `P`. -/
theorem overrideTable_alias_and_plain_witness :
    (∀ A Inner, CppType.named "P" ≠ .inst A [Inner, .pmacc_isAlias]) ∧
    overrideTable [.inst "Alias" [.named "T", .pmacc_isAlias], .named "P"] =
      [(.inst "Alias" [.pmacc_void, .pmacc_isAlias],
        .inst "Alias" [.named "T", .pmacc_isAlias]), (.named "P", .named "P")] ∧
    overrideTable [.named "P", .inst "Alias" [.named "T", .pmacc_isAlias]] =
      [(.named "P", .named "P"), (.inst "Alias" [.pmacc_void, .pmacc_isAlias],
        .inst "Alias" [.named "T", .pmacc_isAlias])] ∧
    (overrideTable [.inst "Alias" [.named "T", .pmacc_isAlias], .named "P"]).length = 2 ∧
    (overrideTable [.named "P", .inst "Alias" [.named "T", .pmacc_isAlias]]).length = 2 ∧
    CppType.inst "Alias" [.pmacc_void, .pmacc_isAlias] ≠ .named "P" :=
  ⟨by intro A Inner h; simp at h,
    overrideTable_alias_and_plain "Alias" (.named "T") (.named "P")
      (by intro A Inner h; simp at h)⟩

/-! ## Field positions: the domain of the dispatch -/

/-- C13: the dispatch is total on the supported domain.  For every field kind
of E, B, J, Tmp and every dimension of 2, 3, `FieldPosition` resolves to a
specialisation and the call returns a value. -/
theorem FieldPosition_total (T_Field : Field) (Dim : Nat) (hDim : Dim = 2 ∨ Dim = 3) :
    ∃ r, FieldPosition T_Field Dim = some r := by
  cases T_Field
  · rcases hDim with rfl | rfl
    · exact ⟨_, FieldPositionE_DIM2⟩
    · exact ⟨_, FieldPositionE_DIM3⟩
  · rcases hDim with rfl | rfl
    · exact ⟨_, FieldPositionB_DIM2⟩
    · exact ⟨_, FieldPositionB_DIM3⟩
  · rcases hDim with rfl | rfl
    · exact ⟨_, FieldPositionE_DIM2⟩
    · exact ⟨_, FieldPositionE_DIM3⟩
  · exact ⟨_, rfl⟩

/-- Witness of C13: the electric field in two dimensions. -/
theorem FieldPosition_total_witness :
    (2 = 2 ∨ 2 = 3) ∧ ∃ r, FieldPosition .FieldE 2 = some r :=
  ⟨Or.inl rfl, FieldPosition_total .FieldE 2 (Or.inl rfl)⟩

/-- C14: there is no fallback.  For every dimension other than 2 and 3,
`FieldPosition` for E and for B has no specialisation and yields no value; J
takes its result from E at the same dimension only, so at every dimension J
fails exactly when E fails. -/
theorem FieldPosition_no_fallback (Dim : Nat) (h2 : Dim ≠ 2) (h3 : Dim ≠ 3) :
    FieldPosition .FieldE Dim = none ∧ FieldPosition .FieldB Dim = none ∧
    (∀ d, FieldPosition .FieldJ d = none ↔ FieldPosition .FieldE d = none) ∧
    (∀ d, FieldPosition .FieldJ d = FieldPosition .FieldE d) ∧
    FieldPosition .FieldJ Dim = none :=
  ⟨FieldPositionE_none Dim h2 h3, FieldPositionB_none Dim h2 h3,
    fun _ => Iff.rfl, fun _ => rfl, FieldPositionE_none Dim h2 h3⟩

/-- Witness of C14: dimension 1, for which no E or B specialisation is
written. -/
theorem FieldPosition_no_fallback_witness :
    (1 ≠ 2 ∧ 1 ≠ 3) ∧
    FieldPosition .FieldE 1 = none ∧ FieldPosition .FieldB 1 = none ∧
    (∀ d, FieldPosition .FieldJ d = none ↔ FieldPosition .FieldE d = none) ∧
    (∀ d, FieldPosition .FieldJ d = FieldPosition .FieldE d) ∧
    FieldPosition .FieldJ 1 = none :=
  ⟨⟨by decide, by decide⟩, FieldPosition_no_fallback 1 (by decide) (by decide)⟩

/-! ## Field positions: relations between the tables -/

/-- C15: the 2D tables are the projection of the 3D tables onto the first two
axes.  For every field kind of E, B, J, Tmp both calls return, the results
have the same number of components, and dropping the third axis of each 3D
offset vector gives the 2D offset vector of the same component. -/
theorem FieldPosition_DIM2_is_projection (T_Field : Field) :
    ∃ r3 r2, FieldPosition T_Field 3 = some r3 ∧ FieldPosition T_Field 2 = some r2 ∧
      r3.length = r2.length ∧ r3.map (fun v => v.take 2) = r2 ∧
      ∀ v ∈ r3, v.length = 3 := by
  cases T_Field
  · exact ⟨_, _, FieldPositionE_DIM3, FieldPositionE_DIM2, rfl, rfl, by simp⟩
  · exact ⟨_, _, FieldPositionB_DIM3, FieldPositionB_DIM2, rfl, rfl, by simp⟩
  · exact ⟨_, _, FieldPositionE_DIM3, FieldPositionE_DIM2, rfl, rfl, by simp⟩
  · exact ⟨_, _, FieldPositionTmp_eq 3, FieldPositionTmp_eq 2, rfl, rfl, by simp⟩

/-- C16: the literal tables equal the closed-form rule.  For every dimension
of 2, 3, every component index `c < 3` and every axis `a < Dim`, the E offset
of component `c` on axis `a` is 0.5 if `a = c` and 0.0 otherwise, and the B
offset is 0.0 if `a = c` and 0.5 otherwise. -/
theorem offset_eq_closedForm (Dim c a : Nat) (hDim : Dim = 2 ∨ Dim = 3)
    (hc : c < 3) (ha : a < Dim) :
    offset .FieldE Dim c a = some (closedFormE c a) ∧
    offset .FieldB Dim c a = some (closedFormB c a) := by
  rcases hDim with rfl | rfl
  · interval_cases c <;> interval_cases a <;>
      norm_num [offset_FieldE_DIM2, offset_FieldB_DIM2, closedFormE, closedFormB]
  · interval_cases c <;> interval_cases a <;>
      norm_num [offset_FieldE_DIM3, offset_FieldB_DIM3, closedFormE, closedFormB]

/-- Witness of C16: the z component on the x axis of the 2D cell, an entry
whose component index is not an axis of the cell. -/
theorem offset_eq_closedForm_witness :
    ((2 = 2 ∨ 2 = 3) ∧ 2 < 3 ∧ 0 < 2) ∧
    offset .FieldE 2 2 0 = some (closedFormE 2 0) ∧
    offset .FieldB 2 2 0 = some (closedFormB 2 0) :=
  ⟨⟨Or.inl rfl, by decide, by decide⟩,
    offset_eq_closedForm 2 2 0 (Or.inl rfl) (by decide) (by decide)⟩

/-! ## The pair builder: keys -/

/-- C17: the key mapping of the pair builder is idempotent and keys are mapped
to themselves.  For every type `T`, with `K` the key of the pair of `T`, the
pair of `K` is `(K, K)`.  In particular the unbound alias
`Alias<pmacc_void, pmacc_isAlias>` is matched by the alias specialisation and
its pair is the unbound alias twice. -/
theorem TypeToAliasPair_key_idempotent (T : CppType) :
    TypeToAliasPair (TypeToAliasPair T).1 = ((TypeToAliasPair T).1, (TypeToAliasPair T).1) ∧
    ∀ Alias : String,
      TypeToAliasPair (.inst Alias [.pmacc_void, .pmacc_isAlias]) =
        (.inst Alias [.pmacc_void, .pmacc_isAlias], .inst Alias [.pmacc_void, .pmacc_isAlias]) := by
  refine ⟨?_, fun _ => rfl⟩
  by_cases h : ∃ Alias Inner, T = .inst Alias [Inner, .pmacc_isAlias]
  · obtain ⟨Alias, Inner, rfl⟩ := h
    rfl
  · have hT : ∀ Alias Inner, T ≠ .inst Alias [Inner, .pmacc_isAlias] :=
      fun Alias Inner heq => h ⟨Alias, Inner, heq⟩
    rw [TypeToAliasPair_fallback T hT]
    exact TypeToAliasPair_fallback T hT
